import Mathlib

/-!
Upload widget (`src/controlnet/controlnet.js`).

A shallow embedding of the browser form handler: the e-mail validator
`validateEmail`, the derivation of the object key, the click handler, the
timer callback and the `putObject` completion callback.

JavaScript strings are sequences of UTF-16 code units, and a regular
expression without the `u` flag matches code unit by code unit, so a string
is modelled as a list of code units (natural numbers).

`String.prototype.toLowerCase` is a parameter of the click handler. Time is
not modelled: a timer is pending until the event loop fires it, and a request
is pending until the event loop delivers its completion.
-/

namespace Controlnet

/-- A JavaScript string: the list of its UTF-16 code units. -/
abbrev Str := List Nat

/-- UTF-16 code units of one Unicode scalar value. -/
def utf16Char (c : Char) : List Nat :=
  if c.toNat < 65536 then [c.toNat]
  else [55296 + (c.toNat - 65536) / 1024, 56320 + (c.toNat - 65536) % 1024]

/-- UTF-16 code units of a string literal. -/
def js (s : String) : Str := s.toList.flatMap utf16Char

/-! ## Regular expressions -/

/-- The code units matched by the class escape `\s`: the ECMAScript
`WhiteSpace` and `LineTerminator` code points. -/
def isSpace (c : Nat) : Bool :=
  c == 9 || c == 10 || c == 11 || c == 12 || c == 13 || c == 32 || c == 160 ||
  c == 5760 || (8192 ≤ c && c ≤ 8202) || c == 8232 || c == 8233 || c == 8239 ||
  c == 8287 || c == 12288 || c == 65279

/-- One member of a character class. -/
inductive ClassAtom where
  | unit (c : Nat)
  | range (lo hi : Nat)
  | space
  deriving Repr, DecidableEq

/-- Whether code unit `c` belongs to the class member. -/
def ClassAtom.mem (c : Nat) : ClassAtom → Bool
  | .unit d => c == d
  | .range lo hi => lo ≤ c && c ≤ hi
  | .space => isSpace c

/-- The fragment of the ECMAScript pattern grammar used by the source. -/
inductive Regex where
  | bol
  | eol
  | lit (c : Nat)
  | cls (negated : Bool) (atoms : List ClassAtom)
  | seq (r₁ r₂ : Regex)
  | plus (r : Regex)
  deriving Repr

/-- Whether the class `[atoms]` (or `[^atoms]` when `negated`) matches `c`. -/
def classMatches (negated : Bool) (atoms : List ClassAtom) (c : Nat) : Bool :=
  (atoms.any (ClassAtom.mem c)) != negated

/-- A matcher state: the index reached in the input and the input left. -/
abbrev MState := Nat × Str

/-- Greedy repetition of `step`, zero or more times: a further iteration is
tried before stopping, and an iteration that consumes nothing is rejected. -/
def star (step : MState → List MState) : Nat → MState → List MState
  | 0, st => [st]
  | n + 1, st => ((step st).filter (fun st' => st'.1 != st.1)).flatMap (star step n) ++ [st]

/-- The backtracking matcher: all the states in which a match of `r` started
in `st` can end, in the order of priority of the ECMAScript semantics. -/
def run : Regex → MState → List MState
  | .bol, st => if st.1 = 0 then [st] else []
  | .eol, st => if st.2 = [] then [st] else []
  | .lit c, st =>
    match st.2 with
    | d :: rest => if d = c then [(st.1 + 1, rest)] else []
    | [] => []
  | .cls negated atoms, st =>
    match st.2 with
    | d :: rest => if classMatches negated atoms d then [(st.1 + 1, rest)] else []
    | [] => []
  | .seq r₁ r₂, st => (run r₁ st).flatMap (run r₂)
  | .plus r, st => (run r st).flatMap (star (run r) st.2.length)

/-- Models `RegExp.prototype.test` for a pattern without flags: the match is
attempted at every index from 0 on. -/
def Regex.test (re : Regex) (s : Str) : Bool :=
  (List.range (s.length + 1)).any (fun k => !(run re (k, s.drop k)).isEmpty)

/-- The replacement loop of `String.prototype.replace` with a global pattern
and a replacement without `$`: the leftmost match from the current index is
replaced, and after an empty match the index advances by one. -/
def replaceLoop (re : Regex) (rep : Str) : Nat → MState → Str
  | 0, st => st.2
  | n + 1, st =>
    match run re st with
    | [] =>
      match st.2 with
      | [] => []
      | c :: rest => c :: replaceLoop re rep n (st.1 + 1, rest)
    | st' :: _ =>
      if st'.1 = st.1 then
        match st.2 with
        | [] => rep
        | c :: rest => rep ++ c :: replaceLoop re rep n (st.1 + 1, rest)
      else rep ++ replaceLoop re rep n st'

/-- Models `s.replace(re, rep)` for a pattern with the `g` flag. -/
def Regex.replaceGlobal (re : Regex) (s rep : Str) : Str :=
  replaceLoop re rep (s.length + 1) (0, s)

/-- Models `s.replace(pat, rep)` for a string pattern: only the first
occurrence of `pat` is replaced. -/
def replaceStr : Str → Str → Str → Str
  | [], pat, rep => if pat = [] then rep else []
  | c :: rest, pat, rep =>
    if pat.isPrefixOf (c :: rest) then rep ++ (c :: rest).drop pat.length
    else c :: replaceStr rest pat rep

/-- The class `[^\s@]`. -/
def notSpaceAt : Regex := .cls true [.space, .unit 64]

/-- The pattern `/^[^\s@]+@[^\s@]+\.[^\s@]+$/`. -/
def emailRe : Regex :=
  .seq .bol (.seq (.plus notSpaceAt) (.seq (.lit 64) (.seq (.plus notSpaceAt)
    (.seq (.lit 46) (.seq (.plus notSpaceAt) .eol)))))

/-- Source: `validateEmail`. -/
def validateEmail (email : Str) : Bool :=
  emailRe.test email

/-- The pattern `/[^a-zA-Z0-9.]/g`. -/
def fileNameRe : Regex :=
  .cls true [.range 97 122, .range 65 90, .range 48 57, .unit 46]

/-! ## The widget -/

/-- A file of the file chooser: its name, its declared type and its bytes. -/
structure File where
  name : Str
  type : Str
  bytes : List Nat
  deriving DecidableEq, Repr

/-- The parameter object passed to `bucket.putObject`. -/
structure PutObjectParams where
  Key : Str
  ContentType : Str
  Body : File
  Metadata : List (Str × Str)
  deriving DecidableEq, Repr

/-- The functions the source passes to `setTimeout`: there is one, which
clears the text of `results`. -/
inductive TimerCallback where
  | clearResults
  deriving DecidableEq, Repr

/-- A pending single-shot timer: its callback and its delay in ms. -/
structure Timer where
  callback : TimerCallback
  delay : Nat
  deriving DecidableEq, Repr

/-- A failure value handed to the `putObject` callback, represented by the
string that the concatenation `'ERROR: ' + err` converts it to. -/
structure StoreError where
  text : Str
  deriving DecidableEq, Repr

/-- The state the script reads and writes: the button (`disabled`,
`style.backgroundColor`, `textContent`), the text of `results`, the implicit
globals `email` and `clean_email`, the timers set and not yet fired, the
`putObject` requests not yet completed, and every request issued so far. -/
structure Widget where
  disabled : Bool
  backgroundColor : Str
  buttonText : Str
  resultsText : Str
  email : Option Str
  clean_email : Option Str
  timers : List Timer
  pending : List PutObjectParams
  issued : List PutObjectParams
  deriving DecidableEq, Repr

/-- Source: `clean_email = email.replace('@', '_at_')`. -/
def cleanEmail (email : Str) : Str :=
  replaceStr email (js "@") (js "_at_")

/-- Source: `clean_email + '/' + file.name.replace(/[^a-zA-Z0-9.]/g, '_')`. -/
def objKey (email fileName : Str) : Str :=
  cleanEmail email ++ js "/" ++ fileNameRe.replaceGlobal fileName (js "_")

/-- Source: the object literal `params` of the click handler. -/
def mkParams (email : Str) (file : File) : PutObjectParams :=
  { Key := objKey email file.name
    ContentType := file.type
    Body := file
    Metadata := [(js "email", email)] }

/-- Source: the click listener of `button`. `emailValue` is the value of the
e-mail field and `files` the file list of the file chooser at the time of the
click; `toLowerCase` stands for `String.prototype.toLowerCase`. -/
def onClick (toLowerCase : Str → Str) (emailValue : Str) (files : List File)
    (w : Widget) : Widget :=
  let email := toLowerCase emailValue
  let w := { w with email := some email }
  if validateEmail email == false then
    { w with
      resultsText := js "Please enter a valid email address and try again!"
      timers := w.timers ++ [{ callback := .clearResults, delay := 2000 }] }
  else
    match files.head? with
    | some file =>
      let w := { w with
        disabled := true
        backgroundColor := js "#ffc477"
        buttonText := js "Uploaded"
        resultsText := js "" }
      let w := { w with clean_email := some (cleanEmail email) }
      let params := mkParams email file
      { w with pending := w.pending ++ [params], issued := w.issued ++ [params] }
    | none => { w with resultsText := js "Nothing to upload." }

/-- Source: the body of a timer callback. -/
def runTimer : TimerCallback → Widget → Widget
  | .clearResults, w => { w with resultsText := js "" }

/-- Source: the completion callback of `putObject`; `err` is `none` for the
`null` of a successful request. -/
def onPutObject (err : Option StoreError) (w : Widget) : Widget :=
  match err with
  | some e => { w with resultsText := js "ERROR: " ++ e.text }
  | none => { w with resultsText := js "Logo uploaded successfully!" }

/-- What the event loop can deliver to the script. -/
inductive Event where
  | click (emailValue : Str) (files : List File)
  | timer (i : Nat)
  | putDone (i : Nat) (err : Option StoreError)
  deriving DecidableEq, Repr

/-- One turn of the event loop. A click is delivered only while the button
is enabled; a timer fires once and is then gone; a request completes once. -/
def step (toLowerCase : Str → Str) (w : Widget) : Event → Option Widget
  | .click emailValue files =>
    if w.disabled then none else some (onClick toLowerCase emailValue files w)
  | .timer i =>
    match w.timers[i]? with
    | some t => some (runTimer t.callback { w with timers := w.timers.eraseIdx i })
    | none => none
  | .putDone i err =>
    match w.pending[i]? with
    | some _ => some (onPutObject err { w with pending := w.pending.eraseIdx i })
    | none => none

/-- Runs a sequence of events; `none` when one of them cannot be delivered. -/
def exec (toLowerCase : Str → Str) : Widget → List Event → Option Widget
  | w, [] => some w
  | w, e :: es =>
    match step toLowerCase w e with
    | some w' => exec toLowerCase w' es
    | none => none

/-- The state after the page has loaded: the button is enabled, no timer is
set and no request has been issued. The texts come from the page. -/
def idle (backgroundColor buttonText resultsText : Str) : Widget :=
  { disabled := false
    backgroundColor := backgroundColor
    buttonText := buttonText
    resultsText := resultsText
    email := none
    clean_email := none
    timers := []
    pending := []
    issued := [] }

/-- The states the widget can be in after the page has loaded. -/
inductive Reachable (toLowerCase : Str → Str) : Widget → Prop where
  | start (bg label status : Str) : Reachable toLowerCase (idle bg label status)
  | next {w w' : Widget} (e : Event) :
      Reachable toLowerCase w → step toLowerCase w e = some w' → Reachable toLowerCase w'

/-- The invariant of the reachable states: the button is disabled exactly when
a request has been issued, at most one has been, and the pending requests are
no more than the issued ones. -/
def Inv (w : Widget) : Prop :=
  (w.disabled = true ↔ w.issued ≠ []) ∧ w.issued.length ≤ 1 ∧
    w.pending.length ≤ w.issued.length

/-- Lower-casing of the ASCII letters; it agrees with `toLowerCase` on
strings of ASCII code units. -/
def toLowerASCII (s : Str) : Str :=
  s.map (fun c => if 65 ≤ c ∧ c ≤ 90 then c + 32 else c)

/-- A sample file, with a name that needs sanitising. -/
def sampleFile : File :=
  { name := js "My File!.png", type := js "image/png", bytes := [137, 80, 78, 71] }

/-- A sample state right after the page has loaded. -/
def samplePage : Widget := idle (js "#ffffff") (js "Upload") (js "")

/-- A sample state with an upload in flight: `samplePage` after a click with
`Foo@Bar.com` in the field and `sampleFile` selected. -/
def sampleUploading : Widget :=
  onClick toLowerASCII (js "Foo@Bar.com") [sampleFile] samplePage

/-! ## Properties stated by the specification -/

/-- A code unit that is neither `@` nor white space. -/
def plainUnit (c : Nat) : Prop := c ≠ 64 ∧ isSpace c = false

instance : DecidablePred plainUnit := fun c => by unfold plainUnit; infer_instance

/-- A non-empty string without `@` and without white space. -/
def Part (l : Str) : Prop := l ≠ [] ∧ ∀ c ∈ l, plainUnit c

instance : DecidablePred Part := fun l => by unfold Part; infer_instance

/-- The string with every `@` replaced by `_at_`. -/
def replaceEveryAt (s : Str) : Str :=
  s.flatMap (fun c => if c = 64 then js "_at_" else [c])

/-- Membership in `[A-Za-z0-9.]`. -/
def fileNameUnit (c : Nat) : Bool :=
  (65 ≤ c && c ≤ 90) || (97 ≤ c && c ≤ 122) || (48 ≤ c && c ≤ 57) || c == 46

/-- The string with every code unit outside `[A-Za-z0-9.]` replaced by `_`. -/
def sanitizeFileName (s : Str) : Str :=
  s.map (fun c => if fileNameUnit c then c else 95)

/-! ## Lemmas on the matcher -/

theorem js_at : js "@" = [64] := by decide

theorem classMatches_notSpaceAt (c : Nat) :
    classMatches true [.space, .unit 64] c = true ↔ plainUnit c := by
  unfold classMatches plainUnit
  simp only [List.any_cons, List.any_nil, ClassAtom.mem, Bool.or_false]
  by_cases h : c = 64 <;> cases hs : isSpace c <;> simp [h]

theorem mem_run_notSpaceAt {k k' : Nat} {s r : Str} :
    (k', r) ∈ run notSpaceAt (k, s) ↔ ∃ c, s = c :: r ∧ plainUnit c ∧ k' = k + 1 := by
  cases s with
  | nil => simp [run, notSpaceAt]
  | cons d rest =>
    simp only [run, notSpaceAt]
    by_cases h : classMatches true [.space, .unit 64] d = true
    · have hp := (classMatches_notSpaceAt d).1 h
      simp only [h, if_true, List.mem_singleton, Prod.mk.injEq]
      constructor
      · rintro ⟨rfl, rfl⟩
        exact ⟨d, rfl, hp, rfl⟩
      · rintro ⟨c, hc, _, rfl⟩
        simp only [List.cons.injEq] at hc
        exact ⟨rfl, hc.2.symm⟩
    · have hp : ¬ plainUnit d := fun hp => h ((classMatches_notSpaceAt d).2 hp)
      simp only [h]
      constructor
      · intro hm
        simp at hm
      · rintro ⟨c, hc, hpc, _⟩
        simp only [List.cons.injEq] at hc
        exact absurd (hc.1 ▸ hpc) hp

theorem mem_star_notSpaceAt (n : Nat) : ∀ (k : Nat) (s : Str), s.length ≤ n →
    ∀ (k' : Nat) (r : Str), (k', r) ∈ star (run notSpaceAt) n (k, s) ↔
      ∃ l : Str, (∀ c ∈ l, plainUnit c) ∧ s = l ++ r ∧ k' = k + l.length := by
  induction n with
  | zero =>
    intro k s hs k' r
    have hs0 : s = [] := List.length_eq_zero.1 (Nat.le_zero.1 hs)
    subst hs0
    simp only [star, List.mem_singleton, Prod.mk.injEq]
    constructor
    · rintro ⟨rfl, rfl⟩
      exact ⟨[], by simp, rfl, rfl⟩
    · rintro ⟨l, _, hl, hk⟩
      have h2 := List.append_eq_nil.1 hl.symm
      rw [h2.1] at hk
      exact ⟨by simpa using hk, h2.2⟩
  | succ n ih =>
    intro k s hs k' r
    simp only [star, List.mem_append, List.mem_flatMap, List.mem_filter, List.mem_singleton,
      Prod.mk.injEq]
    constructor
    · rintro (⟨⟨k1, s1⟩, ⟨hmem, _⟩, hrest⟩ | ⟨rfl, rfl⟩)
      · obtain ⟨c, hc, hpc, rfl⟩ := mem_run_notSpaceAt.1 hmem
        subst hc
        have hlen : s1.length ≤ n := by simpa using hs
        obtain ⟨l, hl, hs1, hk'⟩ := (ih (k + 1) s1 hlen k' r).1 hrest
        refine ⟨c :: l, ?_, by simp [hs1], by simp [hk']; omega⟩
        intro x hx
        rcases List.mem_cons.1 hx with rfl | hx
        · exact hpc
        · exact hl x hx
      · exact ⟨[], by simp, rfl, rfl⟩
    · rintro ⟨l, hl, hsr, hk'⟩
      cases l with
      | nil =>
        right
        simp only [List.nil_append] at hsr
        exact ⟨by simpa using hk', hsr.symm⟩
      | cons c l =>
        left
        subst hsr
        have hlen : (l ++ r).length ≤ n := by simpa using hs
        refine ⟨(k + 1, l ++ r), ⟨mem_run_notSpaceAt.2 ⟨c, rfl, hl c (List.mem_cons_self _ _), rfl⟩,
          by simp⟩, ?_⟩
        exact (ih (k + 1) (l ++ r) hlen k' r).2
          ⟨l, fun x hx => hl x (List.mem_cons_of_mem _ hx), rfl, by simp [hk']; omega⟩

theorem mem_run_plus_notSpaceAt {k k' : Nat} {s r : Str} :
    (k', r) ∈ run (.plus notSpaceAt) (k, s) ↔
      ∃ l : Str, Part l ∧ s = l ++ r ∧ k' = k + l.length := by
  simp only [run, List.mem_flatMap]
  constructor
  · rintro ⟨⟨k1, s1⟩, hmem, hrest⟩
    obtain ⟨c, hc, hpc, rfl⟩ := mem_run_notSpaceAt.1 hmem
    subst hc
    obtain ⟨l, hl, hs1, hk'⟩ :=
      (mem_star_notSpaceAt _ (k + 1) s1 (by simp) k' r).1 hrest
    refine ⟨c :: l, ⟨by simp, ?_⟩, by simp [hs1], by simp [hk']; omega⟩
    intro x hx
    rcases List.mem_cons.1 hx with rfl | hx
    · exact hpc
    · exact hl x hx
  · rintro ⟨l, ⟨hne, hl⟩, hsr, hk'⟩
    cases l with
    | nil => exact absurd rfl hne
    | cons c l =>
      subst hsr
      refine ⟨(k + 1, l ++ r), mem_run_notSpaceAt.2 ⟨c, rfl, hl c (List.mem_cons_self _ _), rfl⟩, ?_⟩
      exact (mem_star_notSpaceAt _ (k + 1) (l ++ r) (by simp) k' r).2
        ⟨l, fun x hx => hl x (List.mem_cons_of_mem _ hx), rfl, by simp [hk']; omega⟩

theorem mem_run_lit {c k k' : Nat} {s r : Str} :
    (k', r) ∈ run (.lit c) (k, s) ↔ s = c :: r ∧ k' = k + 1 := by
  cases s with
  | nil => simp [run]
  | cons d rest =>
    simp only [run]
    by_cases h : d = c
    · subst h
      simp only [if_true, List.mem_singleton, Prod.mk.injEq, List.cons.injEq, true_and]
      constructor
      · rintro ⟨rfl, rfl⟩
        exact ⟨rfl, rfl⟩
      · rintro ⟨rfl, rfl⟩
        exact ⟨rfl, rfl⟩
    · simp only [h, if_false, List.cons.injEq, false_and]
      simp

theorem test_emailRe (s : Str) :
    emailRe.test s = true ↔ ∃ st, st ∈ run (.seq (.plus notSpaceAt) (.seq (.lit 64)
      (.seq (.plus notSpaceAt) (.seq (.lit 46) (.seq (.plus notSpaceAt) .eol))))) (0, s) := by
  unfold Regex.test emailRe
  simp only [List.any_eq_true, List.mem_range, Bool.not_eq_true', List.isEmpty_eq_false]
  constructor
  · rintro ⟨k, _, hk⟩
    obtain ⟨st, hst⟩ := List.exists_mem_of_ne_nil _ hk
    rw [run] at hst
    by_cases h0 : k = 0
    · subst h0
      refine ⟨st, ?_⟩
      simpa [run] using hst
    · simp [run, h0] at hst
  · rintro ⟨st, hst⟩
    refine ⟨0, by omega, ?_⟩
    intro hnil
    have : st ∈ run (.seq .bol (.seq (.plus notSpaceAt) (.seq (.lit 64)
      (.seq (.plus notSpaceAt) (.seq (.lit 46) (.seq (.plus notSpaceAt) .eol)))))) (0, s) := by
      rw [run]
      simpa [run] using hst
    simp only [List.drop_zero] at hnil
    rw [hnil] at this
    exact absurd this (List.not_mem_nil _)

theorem validateEmail_iff (s : Str) :
    validateEmail s = true ↔
      ∃ l d t : Str, s = l ++ 64 :: (d ++ 46 :: t) ∧ Part l ∧ Part d ∧ Part t := by
  unfold validateEmail
  rw [test_emailRe]
  constructor
  · rintro ⟨⟨kf, rf⟩, hst⟩
    rw [run, List.mem_flatMap] at hst
    obtain ⟨⟨k1, r1⟩, h1, hst⟩ := hst
    rw [run, List.mem_flatMap] at hst
    obtain ⟨⟨k2, r2⟩, h2, hst⟩ := hst
    rw [run, List.mem_flatMap] at hst
    obtain ⟨⟨k3, r3⟩, h3, hst⟩ := hst
    rw [run, List.mem_flatMap] at hst
    obtain ⟨⟨k4, r4⟩, h4, hst⟩ := hst
    rw [run, List.mem_flatMap] at hst
    obtain ⟨⟨k5, r5⟩, h5, hst⟩ := hst
    obtain ⟨l, hl, hs, _⟩ := mem_run_plus_notSpaceAt.1 h1
    obtain ⟨hr1, _⟩ := mem_run_lit.1 h2
    obtain ⟨d, hd, hr2, _⟩ := mem_run_plus_notSpaceAt.1 h3
    obtain ⟨hr3, _⟩ := mem_run_lit.1 h4
    obtain ⟨t, ht, hr4, _⟩ := mem_run_plus_notSpaceAt.1 h5
    have hr5 : r5 = [] := by
      by_contra hne
      simp [run, hne] at hst
    refine ⟨l, d, t, ?_, hl, hd, ht⟩
    rw [hs, hr1, hr2, hr3, hr4, hr5, List.append_nil]
  · rintro ⟨l, d, t, rfl, hl, hd, ht⟩
    refine ⟨(l.length + 1 + d.length + 1 + t.length, []), ?_⟩
    rw [run, List.mem_flatMap]
    refine ⟨(l.length, 64 :: (d ++ 46 :: t)),
      mem_run_plus_notSpaceAt.2 ⟨l, hl, rfl, by simp⟩, ?_⟩
    rw [run, List.mem_flatMap]
    refine ⟨(l.length + 1, d ++ 46 :: t), mem_run_lit.2 ⟨rfl, rfl⟩, ?_⟩
    rw [run, List.mem_flatMap]
    refine ⟨(l.length + 1 + d.length, 46 :: t),
      mem_run_plus_notSpaceAt.2 ⟨d, hd, rfl, rfl⟩, ?_⟩
    rw [run, List.mem_flatMap]
    refine ⟨(l.length + 1 + d.length + 1, t), mem_run_lit.2 ⟨rfl, rfl⟩, ?_⟩
    rw [run, List.mem_flatMap]
    refine ⟨(l.length + 1 + d.length + 1 + t.length, []),
      mem_run_plus_notSpaceAt.2 ⟨t, ht, by simp, rfl⟩, ?_⟩
    simp [run]

theorem not_mem_at_of_part {l : Str} (h : Part l) : 64 ∉ l :=
  fun hm => (h.2 64 hm).1 rfl

theorem validateEmail_count_at {s : Str} (h : validateEmail s = true) : s.count 64 = 1 := by
  obtain ⟨l, d, t, rfl, hl, hd, ht⟩ := (validateEmail_iff s).1 h
  have h1 := List.count_eq_zero_of_not_mem (not_mem_at_of_part hl)
  have h2 := List.count_eq_zero_of_not_mem (not_mem_at_of_part hd)
  have h3 := List.count_eq_zero_of_not_mem (not_mem_at_of_part ht)
  simp [List.count_append, List.count_cons, h1, h2, h3]

theorem validateEmail_no_space {s : Str} (h : validateEmail s = true) :
    ∀ c ∈ s, isSpace c = false := by
  obtain ⟨l, d, t, rfl, hl, hd, ht⟩ := (validateEmail_iff s).1 h
  intro c hc
  simp only [List.mem_append, List.mem_cons] at hc
  rcases hc with hc | rfl | hc | rfl | hc
  · exact (hl.2 c hc).2
  · decide
  · exact (hd.2 c hc).2
  · decide
  · exact (ht.2 c hc).2

theorem validateEmail_dot_after_at {s : Str} (h : validateEmail s = true) (p q : Str)
    (hs : s = p ++ 64 :: q) (hq : 64 ∉ q) : 46 ∈ q := by
  obtain ⟨l, d, t, rfl, hl, hd, ht⟩ := (validateEmail_iff s).1 h
  have hdt : 64 ∉ d ++ 46 :: t := by
    simp only [List.mem_append, List.mem_cons, not_or]
    exact ⟨not_mem_at_of_part hd, by decide, not_mem_at_of_part ht⟩
  rcases List.append_eq_append_iff.1 hs with ⟨a, hp, ha⟩ | ⟨a, hl', ha⟩
  · cases a with
    | nil =>
      simp only [List.nil_append, List.cons.injEq, true_and] at ha
      rw [← ha]
      simp
    | cons x a =>
      simp only [List.cons_append, List.cons.injEq] at ha
      exact absurd (ha.2 ▸ (by simp : 64 ∈ a ++ 64 :: q)) hdt
  · cases a with
    | nil =>
      simp only [List.nil_append, List.cons.injEq, true_and] at ha
      rw [ha]
      simp
    | cons x a =>
      simp only [List.cons_append, List.cons.injEq] at ha
      exact absurd (ha.2 ▸ (by simp : 64 ∈ a ++ 64 :: (d ++ 46 :: t))) hq

/-! ## Lemmas on the object key -/

theorem js_underscore : js "_" = [95] := by decide

theorem classMatches_fileNameRe (c : Nat) :
    classMatches true [.range 97 122, .range 65 90, .range 48 57, .unit 46] c
      = !fileNameUnit c := by
  unfold classMatches fileNameUnit
  simp only [List.any_cons, List.any_nil, ClassAtom.mem, Bool.or_false]
  cases h1 : (decide (65 ≤ c) && decide (c ≤ 90)) <;>
    cases h2 : (decide (97 ≤ c) && decide (c ≤ 122)) <;>
    cases h3 : (decide (48 ≤ c) && decide (c ≤ 57)) <;>
    cases h4 : (c == 46) <;> rfl

theorem replaceLoop_fileNameRe (n : Nat) : ∀ (k : Nat) (s : Str), s.length ≤ n →
    replaceLoop fileNameRe (js "_") n (k, s) = sanitizeFileName s := by
  induction n with
  | zero =>
    intro k s hs
    have hs0 : s = [] := List.length_eq_zero.1 (Nat.le_zero.1 hs)
    subst hs0
    rfl
  | succ n ih =>
    intro k s hs
    cases s with
    | nil => simp [replaceLoop, run, fileNameRe, sanitizeFileName]
    | cons c rest =>
      have hlen : rest.length ≤ n := by simpa using hs
      have hrec := ih (k + 1) rest hlen
      simp only [replaceLoop, run, fileNameRe, classMatches_fileNameRe]
      cases hc : fileNameUnit c
      · simp only [Bool.not_false, if_true]
        have hne : ¬ (k + 1 = k) := by omega
        simp only [hne, if_false]
        rw [show (.cls true [.range 97 122, .range 65 90, .range 48 57, .unit 46] : Regex)
          = fileNameRe from rfl, hrec, js_underscore]
        simp [sanitizeFileName, hc]
      · simp only [Bool.not_true]
        rw [show (.cls true [.range 97 122, .range 65 90, .range 48 57, .unit 46] : Regex)
          = fileNameRe from rfl]
        simp [sanitizeFileName, hc, hrec]

theorem replaceGlobal_fileNameRe (s : Str) :
    fileNameRe.replaceGlobal s (js "_") = sanitizeFileName s :=
  replaceLoop_fileNameRe (s.length + 1) 0 s (Nat.le_succ _)

theorem replaceStr_at (rep : Str) : ∀ (l r : Str), 64 ∉ l →
    replaceStr (l ++ 64 :: r) [64] rep = l ++ rep ++ r := by
  intro l
  induction l with
  | nil =>
    intro r _
    simp [replaceStr, List.isPrefixOf]
  | cons c l ih =>
    intro r hl
    have hc : ¬ (64 = c) := fun h => hl (h ▸ List.mem_cons_self _ _)
    have hl' : 64 ∉ l := fun h => hl (List.mem_cons_of_mem _ h)
    simp [replaceStr, List.isPrefixOf, hc, ih r hl']

theorem replaceEveryAt_of_not_mem : ∀ (l : Str), 64 ∉ l → replaceEveryAt l = l := by
  intro l
  induction l with
  | nil => intro _; rfl
  | cons c l ih =>
    intro hl
    have hc : ¬ (c = 64) := fun h => hl (h ▸ List.mem_cons_self _ _)
    have hl' : 64 ∉ l := fun h => hl (List.mem_cons_of_mem _ h)
    have := ih hl'
    unfold replaceEveryAt at this ⊢
    simp [List.flatMap_cons, hc, this]

theorem replaceEveryAt_append (l r : Str) :
    replaceEveryAt (l ++ r) = replaceEveryAt l ++ replaceEveryAt r := by
  unfold replaceEveryAt
  simp [List.flatMap_append]

theorem not_mem_replaceEveryAt (s : Str) : 64 ∉ replaceEveryAt s := by
  unfold replaceEveryAt
  rw [List.mem_flatMap]
  rintro ⟨c, _, hc⟩
  by_cases h : c = 64
  · rw [if_pos h] at hc
    revert hc
    decide
  · rw [if_neg h] at hc
    exact h (List.mem_singleton.1 hc).symm

theorem cleanEmail_eq_replaceEveryAt {e : Str} (h : validateEmail e = true) :
    cleanEmail e = replaceEveryAt e := by
  obtain ⟨l, d, t, rfl, hl, hd, ht⟩ := (validateEmail_iff e).1 h
  have hdt : 64 ∉ d ++ 46 :: t := by
    simp only [List.mem_append, List.mem_cons, not_or]
    exact ⟨not_mem_at_of_part hd, by decide, not_mem_at_of_part ht⟩
  unfold cleanEmail
  rw [js_at, replaceStr_at _ l _ (not_mem_at_of_part hl)]
  rw [replaceEveryAt_append, replaceEveryAt_of_not_mem l (not_mem_at_of_part hl)]
  rw [show (64 :: (d ++ 46 :: t) : Str) = [64] ++ (d ++ 46 :: t) from rfl,
    replaceEveryAt_append, replaceEveryAt_of_not_mem _ hdt]
  rw [show replaceEveryAt [64] = js "_at_" from by decide, List.append_assoc]

/-! ## Lemmas on the widget -/

theorem js_empty : js "" = [] := by decide

theorem step_click {toLowerCase : Str → Str} {w : Widget} (emailValue : Str)
    (files : List File) (hen : w.disabled = false) :
    step toLowerCase w (.click emailValue files)
      = some (onClick toLowerCase emailValue files w) := by
  simp [step, hen]

theorem onClick_invalid {toLowerCase : Str → Str} {emailValue : Str} (w : Widget)
    (files : List File) (hv : validateEmail (toLowerCase emailValue) = false) :
    onClick toLowerCase emailValue files w =
      { w with
        email := some (toLowerCase emailValue)
        resultsText := js "Please enter a valid email address and try again!"
        timers := w.timers ++ [{ callback := .clearResults, delay := 2000 }] } := by
  simp [onClick, hv]

theorem onClick_no_file {toLowerCase : Str → Str} {emailValue : Str} (w : Widget)
    (hv : validateEmail (toLowerCase emailValue) = true) :
    onClick toLowerCase emailValue [] w =
      { w with
        email := some (toLowerCase emailValue)
        resultsText := js "Nothing to upload." } := by
  simp [onClick, hv]

theorem onClick_file {toLowerCase : Str → Str} {emailValue : Str} (w : Widget)
    (file : File) (files : List File)
    (hv : validateEmail (toLowerCase emailValue) = true) :
    onClick toLowerCase emailValue (file :: files) w =
      { disabled := true
        backgroundColor := js "#ffc477"
        buttonText := js "Uploaded"
        resultsText := js ""
        email := some (toLowerCase emailValue)
        clean_email := some (cleanEmail (toLowerCase emailValue))
        timers := w.timers
        pending := w.pending ++ [mkParams (toLowerCase emailValue) file]
        issued := w.issued ++ [mkParams (toLowerCase emailValue) file] } := by
  simp [onClick, hv]

theorem step_inv {toLowerCase : Str → Str} {w w' : Widget} {e : Event}
    (hinv : Inv w) (hs : step toLowerCase w e = some w') : Inv w' := by
  obtain ⟨hd, hi, hp⟩ := hinv
  cases e with
  | click emailValue files =>
    cases hdis : w.disabled with
    | true => simp [step, hdis] at hs
    | false =>
      rw [step_click emailValue files hdis] at hs
      have hiss : w.issued = [] := by
        by_contra hne
        have := hd.2 hne
        rw [hdis] at this
        exact Bool.noConfusion this
      have hpen : w.pending = [] := by
        rw [hiss] at hp
        exact List.length_eq_zero.1 (Nat.le_zero.1 hp)
      simp only [Option.some.injEq] at hs
      subst hs
      unfold Inv
      cases hv : validateEmail (toLowerCase emailValue)
      · simp [onClick_invalid w files hv, hdis, hiss, hpen]
      · cases files with
        | nil => simp [onClick_no_file w hv, hdis, hiss, hpen]
        | cons file files => simp [onClick_file w file files hv, hiss, hpen]
  | timer i =>
    simp only [step] at hs
    cases ht : w.timers[i]? with
    | none => simp [ht] at hs
    | some t =>
      simp only [ht, Option.some.injEq] at hs
      subst hs
      cases t with
      | mk cb delay =>
        cases cb
        exact ⟨hd, hi, hp⟩
  | putDone i err =>
    simp only [step] at hs
    cases hq : w.pending[i]? with
    | none => simp [hq] at hs
    | some q =>
      simp only [hq, Option.some.injEq] at hs
      subst hs
      have hle : (w.pending.eraseIdx i).length ≤ w.issued.length :=
        Nat.le_trans (List.length_eraseIdx_le _ _) hp
      cases err with
      | none => exact ⟨hd, hi, hle⟩
      | some e => exact ⟨hd, hi, hle⟩

theorem reachable_inv {toLowerCase : Str → Str} {w : Widget}
    (h : Reachable toLowerCase w) : Inv w := by
  induction h with
  | start bg label status => simp [Inv, idle]
  | next e _ hs ih => exact step_inv ih hs

theorem step_keeps_disabled {toLowerCase : Str → Str} {w w' : Widget} {e : Event}
    (hs : step toLowerCase w e = some w') (hdis : w.disabled = true) :
    w'.disabled = true ∧ w'.issued = w.issued ∧ w'.buttonText = w.buttonText := by
  cases e with
  | click emailValue files => simp [step, hdis] at hs
  | timer i =>
    simp only [step] at hs
    cases ht : w.timers[i]? with
    | none => simp [ht] at hs
    | some t =>
      simp only [ht, Option.some.injEq] at hs
      subst hs
      cases t with
      | mk cb delay =>
        cases cb
        exact ⟨hdis, rfl, rfl⟩
  | putDone i err =>
    simp only [step] at hs
    cases hq : w.pending[i]? with
    | none => simp [hq] at hs
    | some q =>
      simp only [hq, Option.some.injEq] at hs
      subst hs
      cases err with
      | none => exact ⟨hdis, rfl, rfl⟩
      | some e => exact ⟨hdis, rfl, rfl⟩

/-! ## The validator -/

/-- C1: `validateEmail s` is true exactly when `s` is `l@d.t` with `l`, `d` and
`t` non-empty and free of `@` and of white space; so it is false for a string
without `@`, with more than one `@`, with a white-space code unit anywhere, or
without a `.` after its last `@`. -/
theorem validateEmail_shape (s : Str) :
    (validateEmail s = true ↔
      ∃ l d t : Str, s = l ++ js "@" ++ d ++ js "." ++ t ∧ Part l ∧ Part d ∧ Part t) ∧
    (64 ∉ s → validateEmail s = false) ∧
    (1 < s.count 64 → validateEmail s = false) ∧
    ((∃ c ∈ s, isSpace c = true) → validateEmail s = false) ∧
    (∀ p q : Str, s = p ++ js "@" ++ q → 64 ∉ q → 46 ∉ q → validateEmail s = false) := by
  have hdot : js "." = [46] := by decide
  refine ⟨?_, ?_, ?_, ?_, ?_⟩
  · rw [validateEmail_iff, js_at, hdot]
    constructor
    · rintro ⟨l, d, t, rfl, h⟩
      exact ⟨l, d, t, by simp, h⟩
    · rintro ⟨l, d, t, rfl, h⟩
      exact ⟨l, d, t, by simp, h⟩
  · intro hno
    cases hv : validateEmail s
    · rfl
    · have hc := validateEmail_count_at hv
      rw [List.count_eq_zero_of_not_mem hno] at hc
      exact absurd hc (by decide)
  · intro hmany
    cases hv : validateEmail s
    · rfl
    · have hc := validateEmail_count_at hv
      omega
  · rintro ⟨c, hc, hsp⟩
    cases hv : validateEmail s
    · rfl
    · have := validateEmail_no_space hv c hc
      rw [hsp] at this
      exact Bool.noConfusion this
  · intro p q hs hq hdotq
    cases hv : validateEmail s
    · rfl
    · rw [js_at] at hs
      exact absurd (validateEmail_dot_after_at hv p q (by simpa using hs) hq) hdotq

/-- Witness for C1 at `"a b@c.d"`, which has a space. -/
theorem validateEmail_shape_witness : validateEmail (js "a b@c.d") = false :=
  (validateEmail_shape (js "a b@c.d")).2.2.2.1 ⟨32, by decide, by decide⟩

/-- C2 as stated fails: for `a = "x"`, `b = ""` and `c = "c"` the parts `a` and
`b.c` are non-empty and free of `@` and of white space, and `validateEmail`
rejects `"x@.c"`. -/
theorem validateEmail_rejects_empty_label :
    (js "x" ≠ [] ∧ js "" ++ js "." ++ js "c" ≠ [] ∧ (∀ u ∈ js "x", plainUnit u) ∧
      (∀ u ∈ js "" ++ js "." ++ js "c", plainUnit u)) ∧
    validateEmail (js "x" ++ js "@" ++ js "" ++ js "." ++ js "c") = false := by
  decide

/-- C2, amended: for `a`, `b` and `c` each non-empty and free of `@` and of
white space, `validateEmail` accepts `a@b.c`. -/
theorem validateEmail_accepts (a b c : Str) (ha : Part a) (hb : Part b) (hc : Part c) :
    validateEmail (a ++ js "@" ++ b ++ js "." ++ c) = true := by
  have hdot : js "." = [46] := by decide
  rw [validateEmail_iff, js_at, hdot]
  exact ⟨a, b, c, by simp, ha, hb, hc⟩

/-- Witness for C2 at `"foo@bar.com"`. -/
theorem validateEmail_accepts_witness :
    validateEmail (js "foo" ++ js "@" ++ js "bar" ++ js "." ++ js "com") = true :=
  validateEmail_accepts (js "foo") (js "bar") (js "com") (by decide) (by decide) (by decide)

/-! ## The object key -/

/-- C3: for a click with an accepted lower-cased e-mail and a selected file, the
key of the request is the e-mail with every `@` replaced by `_at_` (which has
no `@` left), then `/`, then the file name with every code unit outside
`[A-Za-z0-9.]` replaced by `_`; the key is the function `objKey` of the e-mail
and the file name, and for `foo@bar.com` and `My File!.png` it is
`foo_at_bar.com/My_File_.png`. -/
theorem objKey_form (toLowerCase : Str → Str) (w : Widget) (emailValue : Str)
    (file : File) (files : List File) (hen : w.disabled = false)
    (hv : validateEmail (toLowerCase emailValue) = true) :
    (∃ w' p, step toLowerCase w (.click emailValue (file :: files)) = some w' ∧
      w'.issued = w.issued ++ [p] ∧
      p.Key = objKey (toLowerCase emailValue) file.name ∧
      p.Key = replaceEveryAt (toLowerCase emailValue) ++ js "/" ++ sanitizeFileName file.name) ∧
    64 ∉ replaceEveryAt (toLowerCase emailValue) ∧
    (sanitizeFileName file.name).length = file.name.length ∧
    objKey (js "foo@bar.com") (js "My File!.png") = js "foo_at_bar.com/My_File_.png" := by
  refine ⟨⟨_, mkParams (toLowerCase emailValue) file, step_click emailValue _ hen, ?_, rfl, ?_⟩,
    not_mem_replaceEveryAt _, by simp [sanitizeFileName], by decide⟩
  · rw [onClick_file w file files hv]
  · simp only [mkParams, objKey]
    rw [cleanEmail_eq_replaceEveryAt hv, replaceGlobal_fileNameRe]

/-- Witness for C3: the page just loaded, the field holding `Foo@Bar.com`. -/
theorem objKey_form_witness :
    (∃ w' p, step toLowerASCII samplePage (.click (js "Foo@Bar.com") [sampleFile]) = some w' ∧
      w'.issued = samplePage.issued ++ [p] ∧
      p.Key = objKey (toLowerASCII (js "Foo@Bar.com")) sampleFile.name ∧
      p.Key = replaceEveryAt (toLowerASCII (js "Foo@Bar.com")) ++ js "/"
        ++ sanitizeFileName sampleFile.name) ∧
    64 ∉ replaceEveryAt (toLowerASCII (js "Foo@Bar.com")) ∧
    (sanitizeFileName sampleFile.name).length = sampleFile.name.length ∧
    objKey (js "foo@bar.com") (js "My File!.png") = js "foo_at_bar.com/My_File_.png" :=
  objKey_form toLowerASCII samplePage (js "Foo@Bar.com") sampleFile [] (by decide) (by decide)

/-- C10: `x_at_y@z.w` and `x@y_at_z.w` are distinct, both accepted by
`validateEmail`, and give the same object key for every file name. -/
theorem objKey_not_injective :
    js "x_at_y@z.w" ≠ js "x@y_at_z.w" ∧
    validateEmail (js "x_at_y@z.w") = true ∧ validateEmail (js "x@y_at_z.w") = true ∧
    (∀ fileName : Str, objKey (js "x_at_y@z.w") fileName = objKey (js "x@y_at_z.w") fileName) ∧
    (∀ file : File, (mkParams (js "x_at_y@z.w") file).Key = (mkParams (js "x@y_at_z.w") file).Key) := by
  have hc : cleanEmail (js "x_at_y@z.w") = cleanEmail (js "x@y_at_z.w") := by decide
  refine ⟨by decide, by decide, by decide, ?_, ?_⟩
  · intro fileName
    simp only [objKey, hc]
  · intro file
    simp only [mkParams, objKey, hc]

/-! ## The click handler and the callbacks -/

/-- C4: with the button enabled and an e-mail whose lower-case form is rejected,
a click shows the invalid-email message, adds one 2000 ms timer whose firing
clears the status and removes the timer, issues no request and leaves the
button enabled with its label and style, whatever the file list is. -/
theorem click_invalid_email (toLowerCase : Str → Str) (w : Widget) (emailValue : Str)
    (files : List File) (hen : w.disabled = false)
    (hv : validateEmail (toLowerCase emailValue) = false) :
    ∃ w', step toLowerCase w (.click emailValue files) = some w' ∧
      w'.resultsText = js "Please enter a valid email address and try again!" ∧
      w'.timers = w.timers ++ [{ callback := .clearResults, delay := 2000 }] ∧
      (∃ w'', step toLowerCase w' (.timer w.timers.length) = some w'' ∧
        w''.resultsText = js "" ∧ w''.timers = w.timers) ∧
      w'.issued = w.issued ∧ w'.pending = w.pending ∧
      w'.disabled = false ∧ w'.buttonText = w.buttonText ∧
      w'.backgroundColor = w.backgroundColor := by
  refine ⟨_, step_click emailValue files hen, ?_⟩
  rw [onClick_invalid w files hv]
  refine ⟨rfl, rfl, ?_, rfl, rfl, hen, rfl, rfl⟩
  refine ⟨{ w with email := some (toLowerCase emailValue), resultsText := js "" }, ?_, rfl, rfl⟩
  simp only [step, List.getElem?_concat_length, runTimer]
  rw [List.eraseIdx_append_of_length_le (Nat.le_refl _)]
  simp

/-- Witness for C4: the page just loaded, the field holding `bad-email`, and a
file selected. -/
theorem click_invalid_email_witness :
    ∃ w', step toLowerASCII samplePage (.click (js "bad-email") [sampleFile]) = some w' ∧
      w'.resultsText = js "Please enter a valid email address and try again!" ∧
      w'.timers = samplePage.timers ++ [{ callback := .clearResults, delay := 2000 }] ∧
      (∃ w'', step toLowerASCII w' (.timer samplePage.timers.length) = some w'' ∧
        w''.resultsText = js "" ∧ w''.timers = samplePage.timers) ∧
      w'.issued = samplePage.issued ∧ w'.pending = samplePage.pending ∧
      w'.disabled = false ∧ w'.buttonText = samplePage.buttonText ∧
      w'.backgroundColor = samplePage.backgroundColor :=
  click_invalid_email toLowerASCII samplePage (js "bad-email") [sampleFile] (by decide)
    (by decide)

/-- C5: with the button enabled, an accepted lower-cased e-mail and no file
selected, a click sets the status to `Nothing to upload.`, issues no request,
sets no timer and leaves the button enabled with its label and style. -/
theorem click_no_file (toLowerCase : Str → Str) (w : Widget) (emailValue : Str)
    (hen : w.disabled = false) (hv : validateEmail (toLowerCase emailValue) = true) :
    ∃ w', step toLowerCase w (.click emailValue []) = some w' ∧
      w'.resultsText = js "Nothing to upload." ∧
      w'.issued = w.issued ∧ w'.pending = w.pending ∧ w'.timers = w.timers ∧
      w'.disabled = false ∧ w'.buttonText = w.buttonText ∧
      w'.backgroundColor = w.backgroundColor := by
  refine ⟨_, step_click emailValue [] hen, ?_⟩
  rw [onClick_no_file w hv]
  exact ⟨rfl, rfl, rfl, rfl, hen, rfl, rfl⟩

/-- Witness for C5: the page just loaded, the field holding `x@y.com`. -/
theorem click_no_file_witness :
    ∃ w', step toLowerASCII samplePage (.click (js "x@y.com") []) = some w' ∧
      w'.resultsText = js "Nothing to upload." ∧
      w'.issued = samplePage.issued ∧ w'.pending = samplePage.pending ∧
      w'.timers = samplePage.timers ∧
      w'.disabled = false ∧ w'.buttonText = samplePage.buttonText ∧
      w'.backgroundColor = samplePage.backgroundColor :=
  click_no_file toLowerASCII samplePage (js "x@y.com") (by decide) (by decide)

/-- C6: with the button enabled, an accepted lower-cased e-mail and a selected
file, the click itself disables the button, sets its label to `Uploaded` and
its background colour, empties the status and issues one request, still
pending after the click, whose key is the derived object key (the e-mail with
every `@` replaced by `_at_`, then `/`, then the file name with every code
unit outside `[A-Za-z0-9.]` replaced by `_`), whose content type is the type
of the file, whose body is the file and whose metadata is the lower-cased
e-mail under `email`. -/
theorem click_upload (toLowerCase : Str → Str) (w : Widget) (emailValue : Str)
    (file : File) (files : List File) (hen : w.disabled = false)
    (hv : validateEmail (toLowerCase emailValue) = true) :
    ∃ w' p, step toLowerCase w (.click emailValue (file :: files)) = some w' ∧
      w'.disabled = true ∧ w'.buttonText = js "Uploaded" ∧
      w'.backgroundColor = js "#ffc477" ∧ w'.resultsText = js "" ∧
      w'.issued = w.issued ++ [p] ∧ w'.pending = w.pending ++ [p] ∧
      w'.timers = w.timers ∧
      p.Key = replaceEveryAt (toLowerCase emailValue) ++ js "/"
        ++ sanitizeFileName file.name ∧
      p.Key = objKey (toLowerCase emailValue) file.name ∧
      p.ContentType = file.type ∧ p.Body = file ∧
      p.Metadata = [(js "email", toLowerCase emailValue)] := by
  have hkey : (mkParams (toLowerCase emailValue) file).Key
      = replaceEveryAt (toLowerCase emailValue) ++ js "/" ++ sanitizeFileName file.name := by
    simp only [mkParams, objKey]
    rw [cleanEmail_eq_replaceEveryAt hv, replaceGlobal_fileNameRe]
  refine ⟨_, mkParams (toLowerCase emailValue) file, step_click emailValue _ hen, ?_⟩
  rw [onClick_file w file files hv]
  exact ⟨rfl, rfl, rfl, rfl, rfl, rfl, rfl, hkey, rfl, rfl, rfl, rfl⟩

/-- Witness for C6: the page just loaded, the field holding `Foo@Bar.com`. -/
theorem click_upload_witness :
    ∃ w' p, step toLowerASCII samplePage (.click (js "Foo@Bar.com") [sampleFile]) = some w' ∧
      w'.disabled = true ∧ w'.buttonText = js "Uploaded" ∧
      w'.backgroundColor = js "#ffc477" ∧ w'.resultsText = js "" ∧
      w'.issued = samplePage.issued ++ [p] ∧ w'.pending = samplePage.pending ++ [p] ∧
      w'.timers = samplePage.timers ∧
      p.Key = replaceEveryAt (toLowerASCII (js "Foo@Bar.com")) ++ js "/"
        ++ sanitizeFileName sampleFile.name ∧
      p.Key = objKey (toLowerASCII (js "Foo@Bar.com")) sampleFile.name ∧
      p.ContentType = sampleFile.type ∧ p.Body = sampleFile ∧
      p.Metadata = [(js "email", toLowerASCII (js "Foo@Bar.com"))] :=
  click_upload toLowerASCII samplePage (js "Foo@Bar.com") sampleFile [] (by decide) (by decide)

/-- C7: when a pending request of a reachable state completes, the callback
sets the status to `ERROR: ` followed by the text of the error for every
failure value, and to `Logo uploaded successfully!` on success; in both cases
no request is issued and the button stays disabled with its label and style.
The callback never writes anything but the status. -/
theorem putObject_completion (toLowerCase : Str → Str) (w : Widget) (i : Nat)
    (p : PutObjectParams) (hr : Reachable toLowerCase w) (hp : w.pending[i]? = some p) :
    (∀ e : StoreError, ∃ w', step toLowerCase w (.putDone i (some e)) = some w' ∧
      w'.resultsText = js "ERROR: " ++ e.text ∧
      w'.issued = w.issued ∧ w'.pending = w.pending.eraseIdx i ∧ w'.timers = w.timers ∧
      w'.disabled = true ∧ w'.buttonText = w.buttonText ∧
      w'.backgroundColor = w.backgroundColor) ∧
    (∃ w', step toLowerCase w (.putDone i none) = some w' ∧
      w'.resultsText = js "Logo uploaded successfully!" ∧
      w'.issued = w.issued ∧ w'.pending = w.pending.eraseIdx i ∧ w'.timers = w.timers ∧
      w'.disabled = true ∧ w'.buttonText = w.buttonText ∧
      w'.backgroundColor = w.backgroundColor) ∧
    (∀ (x : Widget) (err : Option StoreError),
      (onPutObject err x).disabled = x.disabled ∧
      (onPutObject err x).buttonText = x.buttonText ∧
      (onPutObject err x).backgroundColor = x.backgroundColor ∧
      (onPutObject err x).issued = x.issued ∧ (onPutObject err x).pending = x.pending ∧
      (onPutObject err x).timers = x.timers) := by
  obtain ⟨hd, _, hlen⟩ := reachable_inv hr
  have hdis : w.disabled = true := by
    apply hd.2
    intro hnil
    rw [hnil] at hlen
    have hpen : w.pending = [] := List.length_eq_zero.1 (Nat.le_zero.1 hlen)
    rw [hpen] at hp
    simp at hp
  refine ⟨?_, ?_, ?_⟩
  · intro e
    exact ⟨onPutObject (some e) { w with pending := w.pending.eraseIdx i },
      by simp only [step, hp], rfl, rfl, rfl, rfl, hdis, rfl, rfl⟩
  · exact ⟨onPutObject none { w with pending := w.pending.eraseIdx i },
      by simp only [step, hp], rfl, rfl, rfl, rfl, hdis, rfl, rfl⟩
  · intro x err
    cases err <;> exact ⟨rfl, rfl, rfl, rfl, rfl, rfl⟩

/-- Witness for C7: the request of `sampleUploading` completes. -/
theorem putObject_completion_witness :
    ∃ w', step toLowerASCII sampleUploading (.putDone 0 none) = some w' ∧
      w'.resultsText = js "Logo uploaded successfully!" ∧
      w'.issued = sampleUploading.issued ∧
      w'.pending = sampleUploading.pending.eraseIdx 0 ∧
      w'.timers = sampleUploading.timers ∧
      w'.disabled = true ∧ w'.buttonText = sampleUploading.buttonText ∧
      w'.backgroundColor = sampleUploading.backgroundColor :=
  (putObject_completion toLowerASCII sampleUploading 0
    (mkParams (toLowerASCII (js "Foo@Bar.com")) sampleFile)
    (Reachable.next (.click (js "Foo@Bar.com") [sampleFile])
      (Reachable.start (js "#ffffff") (js "Upload") (js "")) (by decide))
    (by decide)).2.1

/-- C8: in every reachable state at most one request has been issued, the
button is disabled exactly when one has been, and at most one is pending; no
step of any state turns a disabled button back to enabled, and no click is
delivered while it is disabled. -/
theorem single_upload (toLowerCase : Str → Str) (w : Widget)
    (hr : Reachable toLowerCase w) :
    w.issued.length ≤ 1 ∧ (w.disabled = true ↔ w.issued ≠ []) ∧ w.pending.length ≤ 1 ∧
    (∀ (x x' : Widget) (e : Event), step toLowerCase x e = some x' →
      x.disabled = true → x'.disabled = true ∧ x'.issued = x.issued) ∧
    (∀ (x : Widget) (emailValue : Str) (files : List File), x.disabled = true →
      step toLowerCase x (.click emailValue files) = none) := by
  obtain ⟨hd, hi, hlen⟩ := reachable_inv hr
  refine ⟨hi, hd, Nat.le_trans hlen hi, ?_, ?_⟩
  · intro x x' e hs hdis
    exact ⟨(step_keeps_disabled hs hdis).1, (step_keeps_disabled hs hdis).2.1⟩
  · intro x emailValue files hdis
    simp [step, hdis]

/-- Witness for C8 at `sampleUploading`. -/
theorem single_upload_witness :
    sampleUploading.issued.length ≤ 1 ∧
    (sampleUploading.disabled = true ↔ sampleUploading.issued ≠ []) ∧
    sampleUploading.pending.length ≤ 1 :=
  have h := single_upload toLowerASCII sampleUploading
    (Reachable.next (.click (js "Foo@Bar.com") [sampleFile])
      (Reachable.start (js "#ffffff") (js "Upload") (js "")) (by decide))
  ⟨h.1, h.2.1, h.2.2.1⟩

/-- C9: from the page just loaded, a click with a rejected e-mail sets the
clear timer; a second click with an accepted e-mail and a file issues the
request while the timer is still pending; the request completes and sets the
status to the success or `ERROR: ` message, which is not empty; then the timer
fires and empties the status: the final state is reachable, has its one
request completed and an empty status. -/
theorem timer_erases_later_status (toLowerCase : Str → Str)
    (bg label status bad good : Str) (badFiles : List File) (file : File)
    (files : List File) (err : Option StoreError)
    (hbad : validateEmail (toLowerCase bad) = false)
    (hgood : validateEmail (toLowerCase good) = true) :
    ∃ w1 w2 w3 w4 : Widget,
      step toLowerCase (idle bg label status) (.click bad badFiles) = some w1 ∧
      w1.timers = [{ callback := .clearResults, delay := 2000 }] ∧
      step toLowerCase w1 (.click good (file :: files)) = some w2 ∧
      w2.timers = [{ callback := .clearResults, delay := 2000 }] ∧
      w2.pending = [mkParams (toLowerCase good) file] ∧
      step toLowerCase w2 (.putDone 0 err) = some w3 ∧
      (∀ e, err = some e → w3.resultsText = js "ERROR: " ++ e.text) ∧
      (err = none → w3.resultsText = js "Logo uploaded successfully!") ∧
      w3.resultsText ≠ js "" ∧
      w3.timers = [{ callback := .clearResults, delay := 2000 }] ∧
      step toLowerCase w3 (.timer 0) = some w4 ∧
      w4.resultsText = js "" ∧
      w4.issued = [mkParams (toLowerCase good) file] ∧ w4.pending = [] ∧
      w4.timers = [] ∧ w4.disabled = true ∧
      Reachable toLowerCase w4 := by
  have e1 : onClick toLowerCase bad badFiles (idle bg label status) =
      { disabled := false, backgroundColor := bg, buttonText := label
        resultsText := js "Please enter a valid email address and try again!"
        email := some (toLowerCase bad), clean_email := none
        timers := [{ callback := .clearResults, delay := 2000 }]
        pending := [], issued := [] } := by
    rw [onClick_invalid (idle bg label status) badFiles hbad]
    rfl
  have h1 := @step_click toLowerCase (idle bg label status) bad badFiles rfl
  rw [e1] at h1
  have e2 := @onClick_file toLowerCase good
    { disabled := false, backgroundColor := bg, buttonText := label
      resultsText := js "Please enter a valid email address and try again!"
      email := some (toLowerCase bad), clean_email := none
      timers := [{ callback := .clearResults, delay := 2000 }]
      pending := [], issued := [] } file files hgood
  simp only [List.nil_append] at e2
  have h2 := @step_click toLowerCase
    { disabled := false, backgroundColor := bg, buttonText := label
      resultsText := js "Please enter a valid email address and try again!"
      email := some (toLowerCase bad), clean_email := none
      timers := [{ callback := .clearResults, delay := 2000 }]
      pending := [], issued := [] } good (file :: files) rfl
  rw [e2] at h2
  have h3 : step toLowerCase
      { disabled := true, backgroundColor := js "#ffc477", buttonText := js "Uploaded"
        resultsText := js "", email := some (toLowerCase good)
        clean_email := some (cleanEmail (toLowerCase good))
        timers := [{ callback := .clearResults, delay := 2000 }]
        pending := [mkParams (toLowerCase good) file]
        issued := [mkParams (toLowerCase good) file] } (.putDone 0 err)
      = some (onPutObject err
          { disabled := true, backgroundColor := js "#ffc477", buttonText := js "Uploaded"
            resultsText := js "", email := some (toLowerCase good)
            clean_email := some (cleanEmail (toLowerCase good))
            timers := [{ callback := .clearResults, delay := 2000 }]
            pending := []
            issued := [mkParams (toLowerCase good) file] }) := by
    simp [step]
  have h4 : step toLowerCase (onPutObject err
      { disabled := true, backgroundColor := js "#ffc477", buttonText := js "Uploaded"
        resultsText := js "", email := some (toLowerCase good)
        clean_email := some (cleanEmail (toLowerCase good))
        timers := [{ callback := .clearResults, delay := 2000 }]
        pending := []
        issued := [mkParams (toLowerCase good) file] }) (.timer 0)
      = some { disabled := true, backgroundColor := js "#ffc477", buttonText := js "Uploaded"
               resultsText := js "", email := some (toLowerCase good)
               clean_email := some (cleanEmail (toLowerCase good))
               timers := [], pending := []
               issued := [mkParams (toLowerCase good) file] } := by
    cases err <;> simp [step, onPutObject, runTimer]
  have hE : js "ERROR: " = [69, 82, 82, 79, 82, 58, 32] := by decide
  refine ⟨_, _, _, _, h1, rfl, h2, rfl, rfl, h3, ?_, ?_, ?_, ?_, h4, rfl, rfl, rfl, rfl, rfl,
    Reachable.next (.timer 0) (Reachable.next (.putDone 0 err)
      (Reachable.next (.click good (file :: files))
        (Reachable.next (.click bad badFiles) (Reachable.start bg label status) h1) h2) h3) h4⟩
  · rintro e rfl
    rfl
  · rintro rfl
    rfl
  · cases err with
    | none => simp only [onPutObject]; decide
    | some e => simp [onPutObject, hE, js_empty]
  · cases err <;> rfl

/-- Witness for C9: `bad-email`, then `Foo@Bar.com` with `sampleFile`, a
successful completion, then the timer. -/
theorem timer_erases_later_status_witness :
    ∃ w4 : Widget,
      exec toLowerASCII samplePage
        [.click (js "bad-email") [], .click (js "Foo@Bar.com") [sampleFile],
          .putDone 0 none, .timer 0] = some w4 ∧
      w4.resultsText = js "" ∧ w4.issued.length = 1 ∧ w4.pending = [] ∧
      w4.disabled = true :=
  have h := timer_erases_later_status toLowerASCII (js "#ffffff") (js "Upload") (js "")
    (js "bad-email") (js "Foo@Bar.com") [] sampleFile [] none (by decide) (by decide)
  match h with
  | ⟨_, _, _, w4, h1, _, h2, _, _, h3, _, _, _, _, h4, hres, hiss, hpen, _, hdis, _⟩ =>
    ⟨w4, by simp only [exec, samplePage, h1, h2, h3, h4], hres, by rw [hiss]; rfl, hpen, hdis⟩

end Controlnet
